import Mathlib

set_option autoImplicit false

namespace PracticeBook

universe u v w

variable {α : Type u} {β : Type v} {γ : Type w}

/-! Lazy-sequence model.

The repository demonstrates Python generator and iterator behaviour
(src/comprehension/iteratingOverArg.py, generatorExpressionForLargeComprehension.py,
comprehensionInsteadMapAndFilter.py, multipleGeneratorWithYield.py); the
specification abstracts this machinery into a pull-based `LazySequence`. -/

/-- Modelled from the spec: `LazySequence` (§3, §4.1) does not exist as code in
the repository; the spec describes a pull-based single-pass sequence holding an
underlying source, a per-item transform, an inclusion predicate and a cursor.
Here the still-unconsumed part of the source plays the cursor: items already
produced are gone, mirroring an exhausted Python iterator. -/
structure LazySequence (α : Type u) (β : Type v) where
  source : List α
  transform : α → β
  predicate : α → Bool

/-- Scan a source for the first item passing the predicate; return the
transformed item (if any) together with the still-unconsumed rest. -/
def scanNext (p : α → Bool) (t : α → β) : List α → Option β × List α
  | [] => (none, [])
  | x :: rest => if p x then (some (t x), rest) else scanNext p t rest

/-- Modelled from the spec: `produceNext()` (§4.1) returns the next value
satisfying the predicate (after transform), or the exhaustion marker `none`;
it consumes the scanned-over part of the source (the cursor advance). -/
def produceNext (s : LazySequence α β) : Option β × LazySequence α β :=
  ((scanNext s.predicate s.transform s.source).1,
   { s with source := (scanNext s.predicate s.transform s.source).2 })

/-- Drive a sequence by `n` further `produceNext` calls, keeping the final state. -/
def driveN (n : Nat) (s : LazySequence α β) : LazySequence α β :=
  match n with
  | 0 => s
  | m + 1 => driveN m (produceNext s).2

/-- Drain a sequence to exhaustion, fuelled by the source length (each
successful `produceNext` consumes at least one source item). -/
def drainAux : Nat → LazySequence α β → List β
  | 0, _ => []
  | fuel + 1, s =>
    match produceNext s with
    | (none, _) => []
    | (some v, s') => v :: drainAux fuel s'

/-- Drive a `LazySequence` to exhaustion and collect every produced value. -/
def drain (s : LazySequence α β) : List β :=
  drainAux s.source.length s

/-- Modelled from the spec: `composeWith` (§4.1) chains one lazy sequence's
output into another's input. A `ChainedSequence` is the downstream stage: it
owns its upstream `LazySequence` and applies its own transform and inclusion
predicate to the values it pulls from upstream. -/
structure ChainedSequence (α : Type u) (β : Type v) (γ : Type w) where
  upstream : LazySequence α β
  transform : β → γ
  predicate : β → Bool

/-- Pull values from upstream until one passes the downstream predicate.
Returns the produced value (if any), the advanced upstream state and the
number of upstream items consumed (successful upstream pulls) by this call.
Fuel bounds the loop; `produceNext2` supplies enough fuel. -/
def pullLoop (t : β → γ) (p : β → Bool) : Nat → LazySequence α β → Option γ × LazySequence α β × Nat
  | 0, up => (none, up, 0)
  | fuel + 1, up =>
    match produceNext up with
    | (none, up') => (none, up', 0)
    | (some v, up') =>
      if p v then (some (t v), up', 1)
      else
        match pullLoop t p fuel up' with
        | (o, up'', k) => (o, up'', k + 1)

/-- Modelled from the spec: `produceNext()` on a chained (composed) stage (§4.1).
The downstream pull transitively advances the upstream cursor (the "domino"
advance); the third component counts upstream items consumed by this call. -/
def produceNext2 (c : ChainedSequence α β γ) : Option γ × ChainedSequence α β γ × Nat :=
  match pullLoop c.transform c.predicate c.upstream.source.length c.upstream with
  | (o, up', k) => (o, { c with upstream := up' }, k)

/-- Drain a chained pipeline to exhaustion: collect every downstream output and
the total number of upstream items consumed. -/
def drain2Aux : Nat → ChainedSequence α β γ → List γ × Nat
  | 0, _ => ([], 0)
  | fuel + 1, c =>
    match produceNext2 c with
    | (none, _, k) => ([], k)
    | (some v, c', k) =>
      match drain2Aux fuel c' with
      | (out, kk) => (v :: out, k + kk)

/-- Drive a chained pipeline to exhaustion (fuelled by the upstream source
length, an upper bound on the number of downstream outputs). -/
def drain2 (c : ChainedSequence α β γ) : List γ × Nat :=
  drain2Aux c.upstream.source.length c

/-! Concrete pipeline from src/comprehension/comprehensionInsteadMapAndFilter.py. -/

/-- From the source (line 6): the input list `a = [1, 2, ..., 10]`. -/
def a : List Int := [1, 2, 3, 4, 5, 6, 7, 8, 9, 10]

/-- From the source (line 36): `even_squares = [x**2 for x in a if x % 2 == 0]`
(`x**2` is squaring, written `x * x`). -/
def even_squares : List Int :=
  (a.filter (fun x => x % 2 == 0)).map (fun x => x * x)

/-- Stage A of the spec's composition property (§8): inclusion predicate
"even", pass-through transform, over the input `[1..10]`. -/
def seqA : LazySequence Int Int :=
  { source := a, transform := fun x => x, predicate := fun x => x % 2 == 0 }

/-- Stage B of the spec's composition property (§8): transform "square"
(`x * x`), non-filtering, pulling from stage A. -/
def seqB : ChainedSequence Int Int Int :=
  { upstream := seqA, transform := fun x => x * x, predicate := fun _ => true }

/-- A small exhausted-after-one-scan sequence used to witness exhaustion
idempotence: no source item passes the predicate, so the first
`produceNext` already returns the exhaustion marker. -/
def wSeq : LazySequence Int Int :=
  { source := [1, 3], transform := fun x => x, predicate := fun x => x % 2 == 0 }

/-- A small concrete chained pipeline used to witness the frame property of
`produceNext2`. -/
def wChain : ChainedSequence Int Int Int :=
  { upstream := { source := [1, 2], transform := fun x => x, predicate := fun _ => true },
    transform := fun x => x * x,
    predicate := fun _ => true }

/-! CallBinder model.

The repository demonstrates Python argument-binding behaviour
(src/functions/onlyPositionalOrOnlyKeywordArgumentFunc.py, noneAndDocstringFunc.py);
the specification abstracts it into the `bind` resolution algorithm (§4.2). -/

/-- Modelled from the spec: a parameter's zone (§4.2 step 1) — positional-only
(before `/` in the Python source), flexible (between `/` and `*`), or
keyword-only (after `*`). -/
inductive Zone where
  | posOnly
  | flexible
  | kwOnly
deriving DecidableEq, BEq

/-- Modelled from the spec: runtime values seen by the binder. Mutable
containers are references into a store (§4.2, §9 definition-time defaults),
mirroring Python object identity; immutable values are inlined. -/
inductive Val where
  | int : Int → Val
  | ref : Nat → Val
deriving DecidableEq, BEq

/-- Modelled from the spec: one parameter declaration (§3): a name, a zone and
a default value already resolved at definition time (or `none` = required). -/
structure ParamDecl where
  name : String
  zone : Zone
  dflt : Option Val
deriving DecidableEq

/-- Modelled from the spec: the binding-failure taxonomy (§7). -/
inductive BindError where
  | TooManyPositionalArgs
  | UnexpectedKeyword
  | UnknownParameter
  | MissingRequiredArgument
deriving DecidableEq, BEq

/-- The positional-capable parameters: positional-only then flexible zone, in
declared order (§4.2 step 2). -/
def posCapable (params : List ParamDecl) : List ParamDecl :=
  params.filter (fun p => !(p.zone == Zone.kwOnly))

/-- The name-value pairs produced by consuming the positional arguments
left-to-right against the positional-capable parameters (§4.2 step 2). -/
def posAssigned (params : List ParamDecl) (posArgs : List Val) : List (String × Val) :=
  ((posCapable params).map (fun p => p.name)).zip posArgs

/-- Modelled from the spec: step 2 of `bind` — fail with
`TooManyPositionalArgs` when more positional args are given than
positional-capable parameters exist. -/
def bindPositional (params : List ParamDecl) (posArgs : List Val) :
    Except BindError (List (String × Val)) :=
  if posArgs.length ≤ (posCapable params).length then
    Except.ok (posAssigned params posArgs)
  else
    Except.error BindError.TooManyPositionalArgs

/-- Modelled from the spec: step 3 of `bind` for one named argument — fail
with `UnexpectedKeyword` when the target parameter is positional-only or
already bound, with `UnknownParameter` when no parameter has that name. -/
def bindNamedOne (params : List ParamDecl) (bound : List (String × Val))
    (nv : String × Val) : Except BindError (List (String × Val)) :=
  match params.find? (fun p => p.name == nv.1) with
  | none => Except.error BindError.UnknownParameter
  | some p =>
    if p.zone == Zone.posOnly then
      Except.error BindError.UnexpectedKeyword
    else if (bound.find? (fun e => e.1 == nv.1)).isSome then
      Except.error BindError.UnexpectedKeyword
    else
      Except.ok (bound ++ [nv])

/-- Modelled from the spec: step 3 of `bind` — consume the named arguments in
order, threading the accumulated bindings; the first failure wins. -/
def bindNamed (params : List ParamDecl) :
    List (String × Val) → List (String × Val) → Except BindError (List (String × Val))
  | bound, [] => Except.ok bound
  | bound, nv :: rest =>
    match bindNamedOne params bound nv with
    | Except.ok bound' => bindNamed params bound' rest
    | Except.error err => Except.error err

/-- Modelled from the spec: step 4 of `bind` for one parameter — keep the
bound value, otherwise fall back to the declared default, otherwise fail with
`MissingRequiredArgument`. -/
def resolveParam (bound : List (String × Val)) (p : ParamDecl) :
    Except BindError (String × Val) :=
  match bound.find? (fun e => e.1 == p.name) with
  | some e => Except.ok (p.name, e.2)
  | none =>
    match p.dflt with
    | some d => Except.ok (p.name, d)
    | none => Except.error BindError.MissingRequiredArgument

/-- Modelled from the spec: step 4 of `bind` over the whole parameter list, in
declared order; the first failure wins. -/
def resolveAll (bound : List (String × Val)) :
    List ParamDecl → Except BindError (List (String × Val))
  | [] => Except.ok []
  | p :: rest =>
    match resolveParam bound p with
    | Except.error err => Except.error err
    | Except.ok e =>
      match resolveAll bound rest with
      | Except.error err => Except.error err
      | Except.ok es => Except.ok (e :: es)

/-- Modelled from the spec: the `bind` resolution algorithm (§4.2), steps 2–4
over a parameter list already in declared zone order (step 1). -/
def bind (params : List ParamDecl) (posArgs : List Val)
    (namedArgs : List (String × Val)) : Except BindError (List (String × Val)) :=
  match bindPositional params posArgs with
  | Except.error err => Except.error err
  | Except.ok posBound =>
    match bindNamed params posBound namedArgs with
    | Except.error err => Except.error err
    | Except.ok allBound => resolveAll allBound params

/-- The spec's running parameter list (§8): positional-only `(a, b)`, flexible
`(c = 10)`, keyword-only `(d)` — the shape of `safe_divisor_f` in
src/functions/onlyPositionalOrOnlyKeywordArgumentFunc.py with a required
keyword-only parameter. -/
def paramSpecABCD : List ParamDecl :=
  [{ name := "a", zone := Zone.posOnly, dflt := none },
   { name := "b", zone := Zone.posOnly, dflt := none },
   { name := "c", zone := Zone.flexible, dflt := some (Val.int 10) },
   { name := "d", zone := Zone.kwOnly, dflt := none }]

/-- A dictionary: contents of one mutable container in the store. -/
def Dict : Type := List (String × Int)

/-- The store of mutable containers, addressed by `Nat` (object identity). -/
def Store : Type := Nat → Dict

/-- Read the container at an address. -/
def deref (store : Store) (addr : Nat) : Dict :=
  store addr

/-- Mutate the container at an address (the external mutation of §8's
shared-default property). -/
def setStore (store : Store) (addr : Nat) (d : Dict) : Store :=
  fun x => if x = addr then d else store x

/-- Read a mutable container through a binding result: look the parameter up
by name and dereference the bound reference. -/
def readMutable (store : Store) (m : List (String × Val)) (nm : String) : Option Dict :=
  match m.find? (fun e => e.1 == nm) with
  | some (_, Val.ref addr) => some (deref store addr)
  | _ => none

/-- The parameter list of `decode(data, default={})` from
src/functions/noneAndDocstringFunc.py (line 55), with the shared mutable
default dictionary living at store address 0. -/
def decodeParams : List ParamDecl :=
  [{ name := "data", zone := Zone.flexible, dflt := none },
   { name := "default", zone := Zone.flexible, dflt := some (Val.ref 0) }]

/-! index_words, from src/comprehension/generatorInsteadOfList.py. -/

/-- From the source (lines 6–13): the eager, list-accumulating `index_words`:
start from `[0]` when the text is nonempty, then append `index + 1` for every
space character while iterating `enumerate(text)`. -/
def index_words (text : List Char) : List Nat :=
  (List.enum text).foldl
    (fun result pr => if pr.2 = ' ' then result ++ [pr.1 + 1] else result)
    (if text.isEmpty then [] else [0])

/-- The yields of `index_words_iter`'s loop, starting at letter index `i`:
yield `index + 1` at every space character. -/
def index_words_iter_go (i : Nat) : List Char → List Nat
  | [] => []
  | c :: rest =>
    if c = ' ' then (i + 1) :: index_words_iter_go (i + 1) rest
    else index_words_iter_go (i + 1) rest

/-- From the source (lines 37–42): the generator `index_words_iter`, driven to
exhaustion: yield `0` when the text is nonempty, then the loop's yields. -/
def index_words_iter (text : List Char) : List Nat :=
  (if text.isEmpty then [] else [0]) ++ index_words_iter_go 0 text

/-! careful_divide, from src/functions/returnNoneFunc.py. -/

/-- The two Python exceptions relevant to `careful_divide`. -/
inductive PyError where
  | ZeroDivisionError
  | ValueError
deriving DecidableEq, BEq

/-- Python's `a / b` on numbers, modelled over exact rationals: raises
`ZeroDivisionError` exactly when the divisor is zero. -/
def pyDiv (x y : ℚ) : Except PyError ℚ :=
  if y = 0 then Except.error PyError.ZeroDivisionError else Except.ok (x / y)

/-- From the source (lines 109–118): the final `careful_divide` — try the
division and turn a `ZeroDivisionError` into a `ValueError`; any other
exception would propagate unchanged. -/
def careful_divide (x y : ℚ) : Except PyError ℚ :=
  match pyDiv x y with
  | Except.ok v => Except.ok v
  | Except.error PyError.ZeroDivisionError => Except.error PyError.ValueError
  | Except.error e => Except.error e

/-! Theorems about the lazy-sequence model. -/

theorem scanNext_none_rest (p : α → Bool) (t : α → β) :
    ∀ l : List α, (scanNext p t l).1 = none → (scanNext p t l).2 = [] := by
  intro l
  induction l with
  | nil => intro _; rfl
  | cons x rest ih =>
    intro h
    cases hx : p x with
    | true => rw [scanNext, if_pos hx] at h; exact Option.noConfusion h
    | false =>
      rw [scanNext, if_neg (by rw [hx]; exact Bool.false_ne_true)] at h ⊢
      exact ih h

theorem produceNext_of_source_nil (s : LazySequence α β) (h : s.source = []) :
    produceNext s = (none, s) := by
  obtain ⟨src, t, p⟩ := s
  have h' : src = [] := h
  subst h'
  rfl

theorem driveN_of_source_nil :
    ∀ (n : Nat) (s : LazySequence α β), s.source = [] → driveN n s = s := by
  intro n
  induction n with
  | zero => intro s _; rfl
  | succ m ih =>
    intro s h
    show driveN m (produceNext s).2 = s
    rw [produceNext_of_source_nil s h]
    exact ih s h

/-- C1: once a `LazySequence` is exhausted — some `produceNext()` call has
returned the exhaustion marker — every further `produceNext()` call, after any
number of intervening calls, again returns the exhaustion marker with the
state unchanged: it never returns a value and never repeats prior output
(`produceNext` is total, so no error is possible). -/
theorem lazySequence_exhaustion_idempotent (s : LazySequence α β)
    (h : (produceNext s).1 = none) :
    ∀ n : Nat, produceNext (driveN n (produceNext s).2) = (none, (produceNext s).2) := by
  intro n
  have h2 : (produceNext s).2.source = [] :=
    scanNext_none_rest s.predicate s.transform s.source h
  rw [driveN_of_source_nil n _ h2]
  exact produceNext_of_source_nil _ h2

/-- C1 witness: the sequence over `[1, 3]` whose predicate ("even") rejects
every item is exhausted by its first `produceNext` call; three further calls
later, `produceNext` still returns the exhaustion marker and the same state. -/
theorem lazySequence_exhaustion_idempotent_witness :
    produceNext (driveN 3 (produceNext wSeq).2) = (none, (produceNext wSeq).2) :=
  lazySequence_exhaustion_idempotent wSeq rfl 3

theorem scanNext_none_filter (p : α → Bool) (t : α → β) :
    ∀ l : List α, (scanNext p t l).1 = none → (l.filter p).map t = [] := by
  intro l
  induction l with
  | nil => intro _; rfl
  | cons x rest ih =>
    intro h
    cases hx : p x with
    | true => rw [scanNext, if_pos hx] at h; exact Option.noConfusion h
    | false =>
      rw [scanNext, if_neg (by rw [hx]; exact Bool.false_ne_true)] at h
      rw [List.filter_cons, if_neg (by rw [hx]; exact Bool.false_ne_true)]
      exact ih h

theorem scanNext_some_filter (p : α → Bool) (t : α → β) :
    ∀ (l rest : List α) (v : β), scanNext p t l = (some v, rest) →
      (l.filter p).map t = v :: (rest.filter p).map t := by
  intro l
  induction l with
  | nil => intro rest v h; exact Option.noConfusion (congrArg Prod.fst h)
  | cons x xs ih =>
    intro rest v h
    cases hx : p x with
    | true =>
      rw [scanNext, if_pos hx] at h
      have hv : some (t x) = some v := congrArg Prod.fst h
      have hrest : xs = rest := congrArg Prod.snd h
      rw [List.filter_cons, if_pos hx, List.map_cons, Option.some.inj hv, hrest]
    | false =>
      rw [scanNext, if_neg (by rw [hx]; exact Bool.false_ne_true)] at h
      rw [List.filter_cons, if_neg (by rw [hx]; exact Bool.false_ne_true)]
      exact ih rest v h

theorem scanNext_some_length (p : α → Bool) (t : α → β) :
    ∀ (l rest : List α) (v : β), scanNext p t l = (some v, rest) →
      rest.length < l.length := by
  intro l
  induction l with
  | nil => intro rest v h; exact Option.noConfusion (congrArg Prod.fst h)
  | cons x xs ih =>
    intro rest v h
    cases hx : p x with
    | true =>
      rw [scanNext, if_pos hx] at h
      have hrest : xs = rest := congrArg Prod.snd h
      rw [← hrest]
      exact Nat.lt_succ_self xs.length
    | false =>
      rw [scanNext, if_neg (by rw [hx]; exact Bool.false_ne_true)] at h
      exact Nat.lt_trans (ih rest v h) (Nat.lt_succ_self xs.length)

theorem drainAux_eq :
    ∀ (fuel : Nat) (s : LazySequence α β), s.source.length ≤ fuel →
      drainAux fuel s = (s.source.filter s.predicate).map s.transform := by
  intro fuel
  induction fuel with
  | zero =>
    intro s h
    have hnil : s.source = [] := List.eq_nil_of_length_eq_zero (Nat.le_zero.mp h)
    rw [hnil]
    rfl
  | succ m ih =>
    intro s h
    cases hsc : scanNext s.predicate s.transform s.source with
    | mk o rest =>
      cases o with
      | none =>
        have h1 : (scanNext s.predicate s.transform s.source).1 = none := by
          rw [hsc]
        have hpn : produceNext s = (none, { s with source := rest }) := by
          unfold produceNext
          rw [hsc]
        rw [drainAux, hpn, (scanNext_none_filter s.predicate s.transform s.source h1)]
      | some v =>
        have hpn : produceNext s = (some v, { s with source := rest }) := by
          unfold produceNext
          rw [hsc]
        have hlen : rest.length < s.source.length :=
          scanNext_some_length s.predicate s.transform s.source rest v hsc
        rw [drainAux, hpn]
        show v :: drainAux m { s with source := rest } =
          (s.source.filter s.predicate).map s.transform
        rw [ih { s with source := rest } (Nat.le_of_lt_succ (Nat.lt_of_lt_of_le hlen h)),
            scanNext_some_filter s.predicate s.transform s.source rest v hsc]

theorem drain_eq (s : LazySequence α β) :
    drain s = (s.source.filter s.predicate).map s.transform :=
  drainAux_eq s.source.length s (Nat.le_refl _)

/-- C3: a `LazySequence` built from any finite source `S` with a pass-through
(identity) transform and no filtering (always-true predicate), driven to
exhaustion, produces exactly the elements of `S`, in order, with no omissions
or additions. -/
theorem lazySequence_passthrough_faithful {α : Type u} (S : List α) :
    drain { source := S, transform := fun x => x, predicate := fun _ => true } = S := by
  rw [drain_eq]
  simp

/-- C2: chaining stage A (inclusion predicate "even", pass-through transform)
into stage B (transform "square", non-filtering) over the input `[1..10]`
produces exactly `[4, 16, 36, 64, 100]` — the value of the source file's
`even_squares` comprehension — and B consumes exactly one value of its source A
per produced output: the pipeline's upstream-consumption count equals its
output count (five A-outputs for five B-outputs). -/
theorem even_square_pipeline :
    drain2 seqB = (even_squares, 5) ∧ even_squares = [4, 16, 36, 64, 100] ∧
      (drain2 seqB).2 = (drain2 seqB).1.length := by
  decide

theorem scanNext_suffix (p : α → Bool) (t : α → β) :
    ∀ l : List α, List.IsSuffix (scanNext p t l).2 l := by
  intro l
  induction l with
  | nil => exact List.suffix_refl []
  | cons x xs ih =>
    cases hx : p x with
    | true =>
      rw [scanNext, if_pos hx]
      exact List.suffix_cons x xs
    | false =>
      rw [scanNext, if_neg (by rw [hx]; exact Bool.false_ne_true)]
      exact ih.trans (List.suffix_cons x xs)

theorem produceNext_suffix (s : LazySequence α β) :
    List.IsSuffix (produceNext s).2.source s.source :=
  scanNext_suffix s.predicate s.transform s.source

theorem pullLoop_frame (t : β → γ) (p : β → Bool) :
    ∀ (fuel : Nat) (up up' : LazySequence α β) (o : Option γ) (k : Nat),
      pullLoop t p fuel up = (o, up', k) →
      up'.transform = up.transform ∧ up'.predicate = up.predicate ∧
      List.IsSuffix up'.source up.source ∧
      (p = (fun _ => true) → ∀ v, o = some v → k = 1 ∧ up' = (produceNext up).2) := by
  intro fuel
  induction fuel with
  | zero =>
    intro up up' o k h
    have h' : ((none : Option γ), up, (0 : Nat)) = (o, up', k) := h
    injection h' with ho hrest
    injection hrest with hup hk
    subst ho; subst hup; subst hk
    refine ⟨rfl, rfl, List.suffix_refl _, ?_⟩
    intro _ v hv
    exact Option.noConfusion hv
  | succ m ih =>
    intro up up' o k h
    rw [pullLoop] at h
    cases hpn : produceNext up with
    | mk o0 up0 =>
      rw [hpn] at h
      have hup0 : up0 = (produceNext up).2 := by rw [hpn]
      have hupt : up0.transform = up.transform := by
        rw [hup0]; rfl
      have hupp : up0.predicate = up.predicate := by
        rw [hup0]; rfl
      have hups : List.IsSuffix up0.source up.source := by
        rw [hup0]; exact produceNext_suffix up
      cases o0 with
      | none =>
        have h' : ((none : Option γ), up0, (0 : Nat)) = (o, up', k) := h
        injection h' with ho hrest
        injection hrest with hup hk
        subst ho; subst hup; subst hk
        refine ⟨hupt, hupp, hups, ?_⟩
        intro _ v hv
        exact Option.noConfusion hv
      | some v0 =>
        have h' : (if p v0 = true
            then ((some (t v0) : Option γ), up0, (1 : Nat))
            else match pullLoop t p m up0 with
                 | (o1, up1, k1) => (o1, up1, k1 + 1)) = (o, up', k) := h
        cases hpv : p v0 with
        | true =>
          rw [if_pos hpv] at h'
          injection h' with ho hrest
          injection hrest with hup hk
          subst ho; subst hup; subst hk
          refine ⟨hupt, hupp, hups, ?_⟩
          intro _ v _
          exact ⟨rfl, rfl⟩
        | false =>
          rw [if_neg (by rw [hpv]; exact Bool.false_ne_true)] at h'
          cases hrec : pullLoop t p m up0 with
          | mk o1 rest1 =>
            cases rest1 with
            | mk up1 k1 =>
              rw [hrec] at h'
              have h'' : (o1, up1, k1 + 1) = (o, up', k) := h'
              injection h'' with ho hrest
              injection hrest with hup hk
              subst ho; subst hup; subst hk
              obtain ⟨f1, f2, f3, _⟩ := ih up0 up1 o1 k1 hrec
              refine ⟨f1.trans hupt, f2.trans hupp, f3.trans hups, ?_⟩
              intro hp v _
              exfalso
              rw [hp] at hpv
              simp at hpv

/-- C8: a `produceNext()` call on a chained (downstream) sequence advances
only the cursor of its upstream source, transitively — the remaining upstream
source after the call is a suffix of the one before — while every other piece
of state (the downstream transform and predicate, and the upstream transform
and predicate) is untouched; and when the downstream stage is non-filtering
(always-true predicate), each produced downstream output consumes exactly one
upstream item, the upstream state being exactly one upstream `produceNext`
advance. -/
theorem chained_produceNext_frame (c : ChainedSequence α β γ) (o : Option γ)
    (c' : ChainedSequence α β γ) (k : Nat) (h : produceNext2 c = (o, c', k)) :
    c'.transform = c.transform ∧ c'.predicate = c.predicate ∧
    c'.upstream.transform = c.upstream.transform ∧
    c'.upstream.predicate = c.upstream.predicate ∧
    List.IsSuffix c'.upstream.source c.upstream.source ∧
    (c.predicate = (fun _ => true) → ∀ v, o = some v →
      k = 1 ∧ c'.upstream = (produceNext c.upstream).2) := by
  cases hpl : pullLoop c.transform c.predicate c.upstream.source.length c.upstream with
  | mk o0 rest =>
    cases rest with
    | mk up' k0 =>
      have h2 : produceNext2 c = (o0, { c with upstream := up' }, k0) := by
        rw [produceNext2, hpl]
      rw [h2] at h
      injection h with ho hrest
      injection hrest with hc hk
      subst ho; subst hc; subst hk
      obtain ⟨f1, f2, f3, f4⟩ :=
        pullLoop_frame c.transform c.predicate c.upstream.source.length c.upstream up' o0 k0 hpl
      exact ⟨rfl, rfl, f1, f2, f3, f4⟩

/-- C8 witness: on the concrete non-filtering pipeline `wChain` (upstream
source `[1, 2]`), the first downstream `produceNext2` call consumes exactly one
upstream item and leaves the upstream exactly one `produceNext` advance
further. -/
theorem chained_produceNext_frame_witness :
    (produceNext2 wChain).2.2 = 1 ∧
    (produceNext2 wChain).2.1.upstream = (produceNext wChain.upstream).2 :=
  (chained_produceNext_frame wChain (produceNext2 wChain).1 (produceNext2 wChain).2.1
    (produceNext2 wChain).2.2 rfl).2.2.2.2.2 rfl 1 rfl

/-! Theorems about the CallBinder model. -/

/-- C4: binding the parameter list (positional-only `(a, b)`, flexible
`(c = 10)`, keyword-only `(d)`) with positional arguments `[1, 2]` and named
arguments `d := 5` succeeds and yields exactly the mapping
`a := 1, b := 2, c := 10, d := 5`: the positional args fill `a` and `b` in
order, `c` takes its declared default, `d` is bound by name. -/
theorem bind_abcd_success :
    bind paramSpecABCD [Val.int 1, Val.int 2] [("d", Val.int 5)] =
      Except.ok [("a", Val.int 1), ("b", Val.int 2),
                 ("c", Val.int 10), ("d", Val.int 5)] := rfl

/-- C5 counterexample: against the same parameter list, `bind` with three
positional arguments `[1, 2, 3]` and no named arguments does not fail with
`TooManyPositionalArgs` — it fails with `MissingRequiredArgument` (the
flexible `c` is the third positional-capable slot and absorbs `3`; the
required keyword-only `d` is left unbound). -/
theorem bind_abcd_three_positional_counterexample :
    bind paramSpecABCD [Val.int 1, Val.int 2, Val.int 3] [] =
      Except.error BindError.MissingRequiredArgument ∧
    BindError.MissingRequiredArgument ≠ BindError.TooManyPositionalArgs :=
  ⟨rfl, by decide⟩

/-- C5 amended: `bind` with positional `[1, 2, 3]` fails, but with
`MissingRequiredArgument` — the flexible parameter `c` is positional-capable
and absorbs the third positional argument, leaving the required keyword-only
`d` unbound; `TooManyPositionalArgs` arises only when the positional arguments
outnumber the three positional-capable slots, e.g. with `[1, 2, 3, 4]`. -/
theorem bind_abcd_three_positional_amended :
    bind paramSpecABCD [Val.int 1, Val.int 2, Val.int 3] [] =
      Except.error BindError.MissingRequiredArgument ∧
    bind paramSpecABCD [Val.int 1, Val.int 2, Val.int 3, Val.int 4] [("d", Val.int 5)] =
      Except.error BindError.TooManyPositionalArgs :=
  ⟨rfl, rfl⟩

/-- C6: against the same parameter list, `bind` with no positional arguments
and named arguments `a := 1, b := 2, d := 5` fails with `UnexpectedKeyword`:
`a` (and `b`) are positional-only and may never be bound by name. -/
theorem bind_abcd_posonly_keyword_rejected :
    bind paramSpecABCD [] [("a", Val.int 1), ("b", Val.int 2), ("d", Val.int 5)] =
      Except.error BindError.UnexpectedKeyword := rfl

theorem bindNamedOne_ok (params : List ParamDecl) (bound : List (String × Val))
    (nv : String × Val) (b' : List (String × Val))
    (h : bindNamedOne params bound nv = Except.ok b') : b' = bound ++ [nv] := by
  unfold bindNamedOne at h
  cases hf : params.find? (fun p => p.name == nv.1) with
  | none => rw [hf] at h; exact Except.noConfusion h
  | some p =>
    rw [hf] at h
    have h' : (if (p.zone == Zone.posOnly) = true
        then Except.error BindError.UnexpectedKeyword
        else if (bound.find? (fun e => e.1 == nv.1)).isSome = true
          then Except.error BindError.UnexpectedKeyword
          else Except.ok (bound ++ [nv])) = Except.ok b' := h
    cases hz : p.zone == Zone.posOnly with
    | true => rw [if_pos hz] at h'; exact Except.noConfusion h'
    | false =>
      rw [if_neg (by rw [hz]; exact Bool.false_ne_true)] at h'
      cases hs : (bound.find? (fun e => e.1 == nv.1)).isSome with
      | true => rw [if_pos hs] at h'; exact Except.noConfusion h'
      | false =>
        rw [if_neg (by rw [hs]; exact Bool.false_ne_true)] at h'
        exact (Except.ok.inj h').symm

theorem bindNamed_keys (params : List ParamDecl) :
    ∀ (namedArgs bound out : List (String × Val)),
      bindNamed params bound namedArgs = Except.ok out →
      ∀ e ∈ out, e.1 ∈ bound.map Prod.fst ∨ e.1 ∈ namedArgs.map Prod.fst := by
  intro namedArgs
  induction namedArgs with
  | nil =>
    intro bound out h e he
    have hbo : bound = out := Except.ok.inj h
    left
    rw [hbo]
    exact List.mem_map_of_mem Prod.fst he
  | cons nv rest ih =>
    intro bound out h e he
    rw [bindNamed] at h
    cases hone : bindNamedOne params bound nv with
    | error err => rw [hone] at h; exact Except.noConfusion h
    | ok bound' =>
      rw [hone] at h
      have hb' : bound' = bound ++ [nv] := bindNamedOne_ok params bound nv bound' hone
      cases ih bound' out h e he with
      | inl hl =>
        rw [hb', List.map_append] at hl
        cases List.mem_append.mp hl with
        | inl h1 => exact Or.inl h1
        | inr h2 =>
          right
          have hnv : e.1 = nv.1 := by simpa using h2
          rw [List.map_cons, hnv]
          exact List.mem_cons_self nv.1 _
      | inr hr =>
        right
        rw [List.map_cons]
        exact List.mem_cons_of_mem nv.1 hr

theorem resolveParam_name (bound : List (String × Val)) (p : ParamDecl)
    (e : String × Val) (h : resolveParam bound p = Except.ok e) : e.1 = p.name := by
  unfold resolveParam at h
  split at h
  · exact (congrArg Prod.fst (Except.ok.inj h)).symm
  · split at h
    · exact (congrArg Prod.fst (Except.ok.inj h)).symm
    · exact Except.noConfusion h

theorem resolveParam_default (bound : List (String × Val)) (p : ParamDecl) (d : Val)
    (hf : bound.find? (fun e => e.1 == p.name) = none) (hd : p.dflt = some d) :
    resolveParam bound p = Except.ok (p.name, d) := by
  unfold resolveParam
  rw [hf, hd]

theorem resolveAll_ok_forall (bound : List (String × Val)) :
    ∀ (params : List ParamDecl) (m : List (String × Val)),
      resolveAll bound params = Except.ok m →
      ∀ p ∈ params, ∃ e ∈ m, resolveParam bound p = Except.ok e := by
  intro params
  induction params with
  | nil => intro m _ p hp; exact absurd hp (List.not_mem_nil p)
  | cons q rest ih =>
    intro m h p hp
    rw [resolveAll] at h
    cases hq : resolveParam bound q with
    | error err => rw [hq] at h; exact Except.noConfusion h
    | ok e =>
      rw [hq] at h
      cases hrest : resolveAll bound rest with
      | error err => rw [hrest] at h; exact Except.noConfusion h
      | ok es =>
        rw [hrest] at h
        have hm : e :: es = m := Except.ok.inj h
        cases List.mem_cons.mp hp with
        | inl hpq =>
          refine ⟨e, ?_, ?_⟩
          · rw [← hm]; exact List.mem_cons_self e es
          · rw [hpq]; exact hq
        | inr hpr =>
          obtain ⟨e', he'm, he'⟩ := ih es hrest p hpr
          exact ⟨e', by rw [← hm]; exact List.mem_cons_of_mem e he'm, he'⟩

theorem resolveAll_keys (bound : List (String × Val)) :
    ∀ (params : List ParamDecl) (m : List (String × Val)),
      resolveAll bound params = Except.ok m →
      m.map Prod.fst = params.map ParamDecl.name := by
  intro params
  induction params with
  | nil =>
    intro m h
    have hm : [] = m := Except.ok.inj h
    rw [← hm]
    rfl
  | cons q rest ih =>
    intro m h
    rw [resolveAll] at h
    cases hq : resolveParam bound q with
    | error err => rw [hq] at h; exact Except.noConfusion h
    | ok e =>
      rw [hq] at h
      cases hrest : resolveAll bound rest with
      | error err => rw [hrest] at h; exact Except.noConfusion h
      | ok es =>
        rw [hrest] at h
        have hm : e :: es = m := Except.ok.inj h
        rw [← hm, List.map_cons, List.map_cons,
            resolveParam_name bound q e hq, ih es hrest]

theorem find?_none_of_keys (m : List (String × Val)) (nm : String)
    (h : ∀ e ∈ m, ¬ e.1 = nm) : m.find? (fun e => e.1 == nm) = none := by
  apply List.find?_eq_none.mpr
  intro x hx
  simp only [beq_iff_eq]
  exact h x hx

theorem find?_of_mem_nodup (k : String) (v : Val) :
    ∀ m : List (String × Val), (k, v) ∈ m → (m.map Prod.fst).Nodup →
      m.find? (fun e => e.1 == k) = some (k, v) := by
  intro m
  induction m with
  | nil => intro h _; exact absurd h (List.not_mem_nil _)
  | cons e rest ih =>
    intro hmem hnd
    have hnd' : (e.1 :: rest.map Prod.fst).Nodup := by simpa using hnd
    by_cases hek : e.1 = k
    · rw [List.find?_cons_of_pos _ (by simpa using hek)]
      cases List.mem_cons.mp hmem with
      | inl h1 => rw [h1]
      | inr h2 =>
        exfalso
        have hk : k ∈ rest.map Prod.fst := List.mem_map_of_mem Prod.fst h2
        exact (List.nodup_cons.mp hnd').1 (hek ▸ hk)
    · rw [List.find?_cons_of_neg _ (by simpa using hek)]
      apply ih
      · cases List.mem_cons.mp hmem with
        | inl h1 => exact absurd (congrArg Prod.fst h1).symm hek
        | inr h2 => exact h2
      · exact (List.nodup_cons.mp hnd').2

theorem bind_default_find (params : List ParamDecl) (posArgs : List Val)
    (namedArgs : List (String × Val)) (p : ParamDecl) (d : Val)
    (m : List (String × Val))
    (hnd : (params.map ParamDecl.name).Nodup)
    (hp : p ∈ params)
    (hd : p.dflt = some d)
    (hpos : ¬ p.name ∈ (posAssigned params posArgs).map Prod.fst)
    (hkw : ¬ p.name ∈ namedArgs.map Prod.fst)
    (hb : bind params posArgs namedArgs = Except.ok m) :
    m.find? (fun e => e.1 == p.name) = some (p.name, d) := by
  unfold bind at hb
  cases hbp : bindPositional params posArgs with
  | error err => rw [hbp] at hb; exact Except.noConfusion hb
  | ok posBound =>
    rw [hbp] at hb
    have hbm : (match bindNamed params posBound namedArgs with
        | Except.error err => Except.error err
        | Except.ok allBound => resolveAll allBound params) = Except.ok m := hb
    cases hbn : bindNamed params posBound namedArgs with
    | error err => rw [hbn] at hbm; exact Except.noConfusion hbm
    | ok allBound =>
      rw [hbn] at hbm
      have hb : resolveAll allBound params = Except.ok m := hbm
      have hpb : posBound = posAssigned params posArgs := by
        unfold bindPositional at hbp
        split at hbp
        · exact (Except.ok.inj hbp).symm
        · exact Except.noConfusion hbp
      have hnone : allBound.find? (fun e => e.1 == p.name) = none := by
        apply find?_none_of_keys
        intro e he heq
        cases bindNamed_keys params namedArgs posBound allBound hbn e he with
        | inl h1 =>
          apply hpos
          rw [← heq, ← hpb]
          exact h1
        | inr h2 => exact hkw (heq ▸ h2)
      obtain ⟨e, hem, he⟩ := resolveAll_ok_forall allBound params m hb p hp
      have hres : resolveParam allBound p = Except.ok (p.name, d) :=
        resolveParam_default allBound p d hnone hd
      have hee : (p.name, d) = e := Except.ok.inj (hres.symm.trans he)
      have hkeys : (m.map Prod.fst).Nodup := by
        rw [resolveAll_keys allBound params m hb]
        exact hnd
      exact find?_of_mem_nodup p.name d m (hee ▸ hem) hkeys

/-- C7: when a parameter's declared default is a mutable container (a
reference into the store, resolved once at definition time), any two `bind`
calls that both fall back to that default bind the parameter to the one
reference created at definition time — both results contain the very same
reference, not fresh copies — so a mutation of the referenced container made
after the first call is observed through the result of the second call (and
the first alike). -/
theorem shared_mutable_default (params : List ParamDecl)
    (posArgs1 posArgs2 : List Val) (namedArgs1 namedArgs2 : List (String × Val))
    (p : ParamDecl) (addr : Nat) (m1 m2 : List (String × Val))
    (hnd : (params.map ParamDecl.name).Nodup)
    (hp : p ∈ params)
    (hd : p.dflt = some (Val.ref addr))
    (h1pos : ¬ p.name ∈ (posAssigned params posArgs1).map Prod.fst)
    (h1kw : ¬ p.name ∈ namedArgs1.map Prod.fst)
    (h2pos : ¬ p.name ∈ (posAssigned params posArgs2).map Prod.fst)
    (h2kw : ¬ p.name ∈ namedArgs2.map Prod.fst)
    (hb1 : bind params posArgs1 namedArgs1 = Except.ok m1)
    (hb2 : bind params posArgs2 namedArgs2 = Except.ok m2) :
    ((p.name, Val.ref addr) ∈ m1 ∧ (p.name, Val.ref addr) ∈ m2) ∧
    ∀ (store : Store) (d : Dict),
      readMutable (setStore store addr d) m1 p.name = some d ∧
      readMutable (setStore store addr d) m2 p.name = some d := by
  have f1 := bind_default_find params posArgs1 namedArgs1 p (Val.ref addr) m1
    hnd hp hd h1pos h1kw hb1
  have f2 := bind_default_find params posArgs2 namedArgs2 p (Val.ref addr) m2
    hnd hp hd h2pos h2kw hb2
  refine ⟨⟨List.mem_of_find?_eq_some f1, List.mem_of_find?_eq_some f2⟩, ?_⟩
  intro store d
  constructor
  · unfold readMutable
    rw [f1]
    show some (deref (setStore store addr d) addr) = some d
    unfold deref setStore
    rw [if_pos rfl]
  · unfold readMutable
    rw [f2]
    show some (deref (setStore store addr d) addr) = some d
    unfold deref setStore
    rw [if_pos rfl]

/-- C7 witness: the parameter list of `decode(data, default={})` with the
shared default dictionary at address 0. Two calls, `decode('bad data')` and
`decode('also bad')`, both fall back to the default; after the mutation
`foo['stuff'] = 5` of the shared container, both binding results observe the
mutated dictionary. -/
theorem shared_mutable_default_witness :
    readMutable (setStore (fun _ => []) 0 [("stuff", 5)])
      [("data", Val.int 1), ("default", Val.ref 0)] "default" = some [("stuff", 5)] ∧
    readMutable (setStore (fun _ => []) 0 [("stuff", 5)])
      [("data", Val.int 2), ("default", Val.ref 0)] "default" = some [("stuff", 5)] :=
  (shared_mutable_default decodeParams [Val.int 1] [Val.int 2] [] []
    { name := "default", zone := Zone.flexible, dflt := some (Val.ref 0) } 0
    [("data", Val.int 1), ("default", Val.ref 0)]
    [("data", Val.int 2), ("default", Val.ref 0)]
    (by decide) (by decide) rfl (by decide) (by decide) (by decide) (by decide)
    rfl rfl).2 (fun _ => []) [("stuff", 5)]

/-! Theorems about index_words and careful_divide. -/

theorem index_words_foldl_go (l : List Char) :
    ∀ (i : Nat) (acc : List Nat),
      (List.enumFrom i l).foldl
          (fun result pr => if pr.2 = ' ' then result ++ [pr.1 + 1] else result) acc
        = acc ++ index_words_iter_go i l := by
  induction l with
  | nil => intro i acc; simp [List.enumFrom, index_words_iter_go]
  | cons c rest ih =>
    intro i acc
    show (List.enumFrom (i + 1) rest).foldl
        (fun result pr => if pr.2 = ' ' then result ++ [pr.1 + 1] else result)
        (if c = ' ' then acc ++ [i + 1] else acc)
      = acc ++ index_words_iter_go i (c :: rest)
    rw [ih (i + 1) (if c = ' ' then acc ++ [i + 1] else acc)]
    by_cases hc : c = ' '
    · rw [if_pos hc, index_words_iter_go, if_pos hc]
      simp [List.append_assoc]
    · rw [if_neg hc, index_words_iter_go, if_neg hc]

/-- C9: for every input text, the eager list-accumulating `index_words` and
the generator `index_words_iter` driven to exhaustion produce exactly the same
sequence of indices in the same order. -/
theorem index_words_eq_iter (text : List Char) :
    index_words text = index_words_iter text := by
  unfold index_words index_words_iter
  exact index_words_foldl_go text 0 _

/-- C10: the final `careful_divide` raises `ValueError` exactly when the
divisor is zero and otherwise returns the quotient; its result is always one
of those two outcomes — it has no `None`-like result at all and the underlying
`ZeroDivisionError` never escapes to the caller. -/
theorem careful_divide_spec (x y : ℚ) :
    careful_divide x y =
      (if y = 0 then Except.error PyError.ValueError else Except.ok (x / y)) := by
  unfold careful_divide pyDiv
  by_cases h : y = 0
  · rw [if_pos h, if_pos h]
  · rw [if_neg h, if_neg h]

end PracticeBook
